import Mathlib

/-
Verification of the Subscription Manager core (subscription store, billing
cycle calculator, lifecycle operations, aggregation engine, budget rollover
engine) against its natural-language specification.

The JavaScript source (dataManager.js, popup.js) is shallowly embedded:
 - calendar dates are triples (year, month, day) with JavaScript's 0-based
   months; `Date.prototype.setMonth` / `setFullYear` normalization is
   modelled by `setMonthAdd` / `setFullYearAdd`;
 - millisecond timestamps (used by pause and resume) are integers;
 - currency amounts are exact rationals;
 - the mutable `DataManager` instance is explicit state passed through each
   operation, and a thrown exception is an `Except.error` paired with the
   state at throw time (so atomicity of failed writes is observable).
-/

namespace SubMgr

/-! ## Calendar dates (JavaScript Date calendar arithmetic) -/

/-- A calendar date as JavaScript's `Date` exposes it: `year` from
`getFullYear()`, `month` from `getMonth()` (0 = January .. 11 = December),
`day` from `getDate()` (1-based). -/
structure CalDate where
  year : Nat
  month : Nat
  day : Nat
deriving DecidableEq, Repr

/-- Gregorian leap-year rule, as implemented by JavaScript `Date`. -/
def isLeapYear (y : Nat) : Bool :=
  (y % 4 == 0 && y % 100 != 0) || y % 400 == 0

/-- Number of days of month `m` (0-based) of year `y`. -/
def daysInMonth (y m : Nat) : Nat :=
  match m with
  | 0 => 31
  | 1 => if isLeapYear y then 29 else 28
  | 2 => 31
  | 3 => 30
  | 4 => 31
  | 5 => 30
  | 6 => 31
  | 7 => 31
  | 8 => 30
  | 9 => 31
  | 10 => 30
  | 11 => 31
  | _ => 30

/-- Model of `d.setMonth(d.getMonth() + k)` for a valid date `d`
(day ≤ 31).  JavaScript's `MakeDay` keeps the numeric day-of-month and
normalizes: a day past the end of the target month rolls over into the
following month (it is NOT clamped).  Because a valid day is at most 31 and
every month has at least 28 days, at most one month of carry can occur. -/
def setMonthAdd (k : Nat) (d : CalDate) : CalDate :=
  let t := d.year * 12 + d.month + k
  if d.day ≤ daysInMonth (t / 12) (t % 12) then
    ⟨t / 12, t % 12, d.day⟩
  else
    ⟨(t + 1) / 12, (t + 1) % 12, d.day - daysInMonth (t / 12) (t % 12)⟩

/-- Model of `d.setFullYear(d.getFullYear() + k)`: same month and numeric
day, with the same roll-over normalization (Feb 29 on a non-leap target
year becomes Mar 1). -/
def setFullYearAdd (k : Nat) (d : CalDate) : CalDate :=
  if d.day ≤ daysInMonth (d.year + k) d.month then
    ⟨d.year + k, d.month, d.day⟩
  else
    let t := (d.year + k) * 12 + d.month + 1
    ⟨t / 12, t % 12, d.day - daysInMonth (d.year + k) d.month⟩

/-- Modelled from the spec: month advance by `k` calendar months keeping the
day-of-month, "if the target month has fewer days, clamp to its last day".
This is the behaviour the spec ascribes to the Billing Cycle Calculator; it
is compared against the source's `setMonthAdd`. -/
def addMonthClamp (k : Nat) (d : CalDate) : CalDate :=
  let t := d.year * 12 + d.month + k
  ⟨t / 12, t % 12, min d.day (daysInMonth (t / 12) (t % 12))⟩

/-- The billing-cycle switch inside `skipNextPayment` (dataManager.js):
monthly adds one month, quarterly three, yearly one year, and any other
cycle string (including `custom`) falls through to one month. -/
def nextPaymentAfter (cycle : String) (d : CalDate) : CalDate :=
  if cycle == ("monthly") then setMonthAdd 1 d
  else if cycle == ("quarterly") then setMonthAdd 3 d
  else if cycle == ("yearly") then setFullYearAdd 1 d
  else setMonthAdd 1 d

/-! ## Subscription records and the store

The record type is generic in the date representation `δ`: `resume` does
millisecond arithmetic on timestamps (`δ = Int`), while `skipNextPayment`
does calendar arithmetic (`δ = CalDate`); a JavaScript `Date` is both at
once. -/

variable {δ : Type}

/-- A subscription record, with the fields of the object built by
`addSubscription` (dataManager.js) that the verified operations touch.
`skippedPayments : Nat` builds in the `(sub.skippedPayments || 0)`
default. -/
structure Subscription (δ : Type) where
  id : String
  name : String
  price : ℚ
  category : String := ("other")
  billingCycle : String := ("monthly")
  nextPaymentDate : Option δ := none
  isActive : Bool := true
  pausedAt : Option δ := none
  skippedPayments : Nat := 0
deriving DecidableEq, Repr

/-- The mutable state of the `DataManager` class instance that the claims
concern: the subscription list and the category set. -/
structure DataManager (δ : Type) where
  subscriptions : List (Subscription δ) := []
  categories : List String :=
    [("entertainment"), ("productivity"), ("utilities"), ("education"), ("other")]
deriving DecidableEq, Repr

/-- The two kinds of exception thrown by the store's write operations:
validation failures (`Invalid subscription data`, `Subscription name is
required`, `Invalid subscription ID`) and unknown-id failures
(`Subscription with ID ... not found`). -/
inductive DMError where
  | validationError
  | notFound
deriving DecidableEq, Repr

deriving instance DecidableEq for Except

/-- Fusion of `findIndex` and `find` by id: the index and the element of the first
subscription whose id matches. -/
def findWithIdx (id : String) : List (Subscription δ) → Option (Nat × Subscription δ)
  | [] => none
  | s :: rest =>
      if s.id == id then some (0, s)
      else (findWithIdx id rest).map (fun p => (p.1 + 1, p.2))

/-- The `updates` object passed to `updateSubscription`, restricted to the
fields the verified call sites use; `none` means the key is absent from the
object spread. -/
structure SubUpdates (δ : Type) where
  name : Option String := none
  price : Option ℚ := none
  isActive : Option Bool := none
  pausedAt : Option δ := none
  nextPaymentDate : Option δ := none
  skippedPayments : Option Nat := none

/-- The object spread `{ ...subscription, ...updates }`. -/
def applyUpdates (u : SubUpdates δ) (s : Subscription δ) : Subscription δ :=
  { s with
    name := u.name.getD s.name
    price := u.price.getD s.price
    isActive := u.isActive.getD s.isActive
    pausedAt := match u.pausedAt with | some p => some p | none => s.pausedAt
    nextPaymentDate :=
      match u.nextPaymentDate with | some d => some d | none => s.nextPaymentDate
    skippedPayments := u.skippedPayments.getD s.skippedPayments }

/-- Model of `updateSubscription(id, updates)` (dataManager.js): id validation, then
lookup, then the merged record's name validation — only after all checks
does the list get mutated.  The state at throw time is returned alongside
the error so atomicity is observable.  `id == ""` models the falsy-id check
`!id` (the `typeof` check is enforced by the `String` type). -/
def updateSubscription (id : String) (u : SubUpdates δ) (dm : DataManager δ) :
    Except DMError (Subscription δ) × DataManager δ :=
  if id == ("") then (Except.error DMError.validationError, dm)
  else
    match findWithIdx id dm.subscriptions with
    | some (i, s) =>
        let s2 := applyUpdates u s
        if s2.name == ("") then (Except.error DMError.validationError, dm)
        else (Except.ok s2, { dm with subscriptions := dm.subscriptions.set i s2 })
    | none => (Except.error DMError.notFound, dm)

/-- The `subscriptionData` argument of `addSubscription`; the surrounding
`Option` is `none` for a non-object argument, and each `none` field is an
absent key. -/
structure AddInput (δ : Type) where
  name : Option String := none
  price : Option ℚ := none
  category : Option String := none
  billingCycle : Option String := none
  nextPaymentDate : Option δ := none
  isActive : Option Bool := none

/-- Model of `addSubscription(subscriptionData)` (dataManager.js).  The generated id
is passed in (`generateId` reads the clock).  The name defaulting
`subscriptionData.name ? subscriptionData.name.trim() : ''` agrees with
`(name.getD "").trim` because the only falsy `String` is `""` and
`"".trim = ""`; likewise `price ? parseFloat(price) : 0` agrees with
`price.getD 0`. -/
def addSubscription (genId : String) (input : Option (AddInput δ)) (dm : DataManager δ) :
    Except DMError (Subscription δ) × DataManager δ :=
  match input with
  | none => (Except.error DMError.validationError, dm)
  | some d =>
      let sub : Subscription δ :=
        { id := genId
          name := (d.name.getD ("")).trim
          price := d.price.getD 0
          category := d.category.getD ("other")
          billingCycle := d.billingCycle.getD ("monthly")
          nextPaymentDate := d.nextPaymentDate
          isActive := d.isActive.getD true
          pausedAt := none
          skippedPayments := 0 }
      if sub.name == ("") then (Except.error DMError.validationError, dm)
      else (Except.ok sub, { dm with subscriptions := dm.subscriptions ++ [sub] })

/-- Model of `deleteSubscription(id)` (dataManager.js). -/
def deleteSubscription (id : String) (dm : DataManager δ) :
    Except DMError Bool × DataManager δ :=
  if id == ("") then (Except.error DMError.validationError, dm)
  else
    match findWithIdx id dm.subscriptions with
    | some (i, _) =>
        (Except.ok true, { dm with subscriptions := dm.subscriptions.eraseIdx i })
    | none => (Except.error DMError.notFound, dm)

/-- Model of `pauseSubscription(id)` (dataManager.js): `find`, and only a found AND
active subscription is updated; otherwise the function returns `null`
(modelled as `ok none`) — including for an unknown id. -/
def pauseSubscription (now : δ) (id : String) (dm : DataManager δ) :
    Except DMError (Option (Subscription δ)) × DataManager δ :=
  match findWithIdx id dm.subscriptions with
  | some (_, s) =>
      if s.isActive then
        let r := updateSubscription id { isActive := some false, pausedAt := some now } dm
        (r.1.map some, r.2)
      else (Except.ok none, dm)
  | none => (Except.ok none, dm)

def msPerDay : Int := 86400000

/-- Model of `resumeSubscription(id)` (dataManager.js): a found, inactive
subscription is reactivated; when `pausedAt` and `nextPaymentDate` are both
set, `daysPaused = Math.floor((Date.now() - pausedAt) / 86400000)`, and only
a positive `daysPaused` shifts `nextPaymentDate` by `daysPaused` whole days
of milliseconds.  Returns `null` (`ok none`) when the subscription is
missing or already active. -/
def resumeSubscription (now : Int) (id : String) (dm : DataManager Int) :
    Except DMError (Option (Subscription Int)) × DataManager Int :=
  match findWithIdx id dm.subscriptions with
  | some (_, s) =>
      if s.isActive then (Except.ok none, dm)
      else
        let u : SubUpdates Int :=
          match s.pausedAt, s.nextPaymentDate with
          | some p, some npd =>
              let daysPaused := Int.fdiv (now - p) msPerDay
              if 0 < daysPaused then
                { isActive := some true
                  nextPaymentDate := some (npd + daysPaused * msPerDay) }
              else { isActive := some true }
          | _, _ => { isActive := some true }
        let r := updateSubscription id u dm
        (r.1.map some, r.2)
  | none => (Except.ok none, dm)

/-- Model of `skipNextPayment(id)` (dataManager.js): a found, active subscription
with a set `nextPaymentDate` gets that date advanced by one billing cycle
(`nextPaymentAfter`) and `skippedPayments` incremented; otherwise the
function returns `null` (`ok none`) — including for an unknown id. -/
def skipNextPayment (id : String) (dm : DataManager CalDate) :
    Except DMError (Option (Subscription CalDate)) × DataManager CalDate :=
  match findWithIdx id dm.subscriptions with
  | some (_, s) =>
      if s.isActive then
        match s.nextPaymentDate with
        | some npd =>
            let r := updateSubscription id
              { nextPaymentDate := some (nextPaymentAfter s.billingCycle npd)
                skippedPayments := some (s.skippedPayments + 1) } dm
            (r.1.map some, r.2)
        | none => (Except.ok none, dm)
      else (Except.ok none, dm)
  | none => (Except.ok none, dm)

/-- Model of `removeCategory(categoryName)` (dataManager.js): removal happens only
when the name is present and more than one category remains; subscriptions
in the removed category move to `"other"`. -/
def removeCategory (name : String) (dm : DataManager δ) : DataManager δ :=
  if dm.categories.contains name && decide (1 < dm.categories.length) then
    { dm with
      categories := dm.categories.erase name
      subscriptions := dm.subscriptions.map (fun s =>
        if s.category == name then { s with category := ("other") } else s) }
  else dm

/-! ## Aggregation engine -/

/-- Model of `calculateMonthlyRate(subscription)` (dataManager.js). -/
def calculateMonthlyRate (s : Subscription δ) : ℚ :=
  if s.billingCycle == ("monthly") then s.price
  else if s.billingCycle == ("quarterly") then s.price / 3
  else if s.billingCycle == ("yearly") then s.price / 12
  else if s.billingCycle == ("custom") then s.price
  else s.price

/-- One step of JavaScript object accumulation
`obj[k] = (obj[k] || 0) + v`: an existing key is updated in place, a new
key is appended in insertion order (`0 || 0 = 0` makes the falsy check
coincide with plain addition). -/
def addToAssoc : List (String × ℚ) → String → ℚ → List (String × ℚ)
  | [], k, v => [(k, v)]
  | (k2, v2) :: rest, k, v =>
      if k2 == k then (k2, v2 + v) :: rest
      else (k2, v2) :: addToAssoc rest k v

/-- Object read `obj[k] || 0`: a missing key yields 0 (and a stored 0 also
yields 0, so `getD 0` is exact). -/
def lookupAmount (l : List (String × ℚ)) (k : String) : ℚ :=
  ((l.find? (fun p => p.1 == k)).map Prod.snd).getD 0

/-- Model of `getSpendingByCategory()` (dataManager.js): active subscriptions'
monthly-equivalent rates accumulated per category. -/
def getSpendingByCategory (subs : List (Subscription δ)) : List (String × ℚ) :=
  subs.foldl
    (fun acc s =>
      if s.isActive then addToAssoc acc s.category (calculateMonthlyRate s) else acc)
    []

/-- Model of `Math.round(q)` for a rational `q`: floor of `q + 1/2`. -/
def jsRound (q : ℚ) : ℤ := ⌊q + 1 / 2⌋

/-- One element of the list `getCategoryBreakdown` returns. -/
structure BreakdownEntry where
  category : String
  amount : ℚ
  percentage : ℤ
deriving DecidableEq, Repr

/-- Model of `getCategoryBreakdown()` (dataManager.js): per-category amounts with an
integer percentage of the total (0 when the total is not positive), sorted
by amount descending (a stable sort models the engine's stable
`Array.prototype.sort`). -/
def getCategoryBreakdown (subs : List (Subscription δ)) : List BreakdownEntry :=
  let spending := getSpendingByCategory subs
  let total := (spending.map Prod.snd).sum
  let entries := spending.map (fun p =>
    { category := p.1
      amount := p.2
      percentage := if 0 < total then jsRound (p.2 / total * 100) else 0
      : BreakdownEntry })
  List.insertionSort (fun a b => b.amount ≤ a.amount) entries

/-- Model of `getMonthlySpending()` (dataManager.js): every active subscription's
monthly rate is accumulated under one and the same key — the current month
`now.toISOString().slice(0, 7)`, passed in as `nowMonth`. -/
def getMonthlySpending (nowMonth : String) (subs : List (Subscription δ)) :
    List (String × ℚ) :=
  subs.foldl
    (fun acc s =>
      if s.isActive then addToAssoc acc nowMonth (calculateMonthlyRate s) else acc)
    []

/-- Model of `getSpendingTrends()` (dataManager.js), as a function of the month map
it reads: fewer than two month keys short-circuits to `stable / 0`;
otherwise the two most recent months are compared, with the
previous-month-zero edge case forced to `up / 100`. -/
def getSpendingTrends (data : List (String × ℚ)) : String × ℤ :=
  let months := List.insertionSort (fun a b : String => a ≤ b) (data.map Prod.fst)
  if months.length < 2 then (("stable"), 0)
  else
    let currentAmount := lookupAmount data (months.getD (months.length - 1) (""))
    let previousAmount := lookupAmount data (months.getD (months.length - 2) (""))
    if previousAmount == 0 then (("up"), 100)
    else
      let pct := (currentAmount - previousAmount) / previousAmount * 100
      (if 0 < pct then ("up") else if pct < 0 then ("down") else ("stable"),
        |jsRound pct|)

/-! ## Budget rollover engine (popup.js, `processMonthlyRollover`) -/

/-- The `rolloverSettings.expiry` string: `"never"` or a month count. -/
inductive RolloverExpiry where
  | never
  | months (n : Nat)
deriving DecidableEq, Repr

structure RolloverSettings where
  enabled : Bool
  mode : String
  percentage : ℚ
  maxAmount : ℚ
  expiry : RolloverExpiry
deriving DecidableEq, Repr

/-- The per-category record stored in a ledger entry. -/
structure RolloverCatEntry where
  budgetAmount : ℚ
  spentAmount : ℚ
  unusedAmount : ℚ
  rolloverAmount : ℚ
deriving DecidableEq, Repr

/-- One month's ledger entry (`rolloverData[monthKey]`); the
`processedAt` timestamp is not modelled. -/
structure RolloverEntry where
  processed : Bool
  categories : List (String × RolloverCatEntry)
  totalAmount : ℚ
deriving DecidableEq, Repr

/-- The ledger `rolloverData`, keyed by absolute month index (year * 12 + month), the
arithmetic the code performs on `YYYY-MM` strings. -/
abbrev RolloverLedger := List (Int × RolloverEntry)

def lookupEntry (l : RolloverLedger) (m : Int) : Option RolloverEntry :=
  (l.find? (fun p => p.1 == m)).map Prod.snd

/-- Object write `rolloverData[m] = e`: replace the entry under an existing
key, else append the new key. -/
def setEntry (l : RolloverLedger) (m : Int) (e : RolloverEntry) : RolloverLedger :=
  if l.any (fun p => p.1 == m) then
    l.map (fun p => if p.1 == m then (m, e) else p)
  else l ++ [(m, e)]

/-- The `categorySpending` accumulation inside `processMonthlyRollover`:
raw `sub.price` (not the monthly-equivalent rate) summed over active
subscriptions per category. -/
def computeCategorySpending (subs : List (Subscription δ)) : List (String × ℚ) :=
  subs.foldl
    (fun acc s => if s.isActive then addToAssoc acc s.category s.price else acc)
    []

/-- The `switch (settings.mode)` on the unused amount; an unrecognized mode
leaves `rolloverAmount = 0`. -/
def rolloverAmountFor (st : RolloverSettings) (unused : ℚ) : ℚ :=
  if st.mode == ("full") then unused
  else if st.mode == ("percentage") then unused * (st.percentage / 100)
  else if st.mode == ("fixed") then min unused st.maxAmount
  else 0

/-- The per-category computation of `processMonthlyRollover`:
`unusedAmount = max(0, budgetAmount - spentAmount)` and the mode switch. -/
def rolloverForCategory (st : RolloverSettings) (b s : ℚ) : RolloverCatEntry :=
  let unused := max 0 (b - s)
  { budgetAmount := b
    spentAmount := s
    unusedAmount := unused
    rolloverAmount := rolloverAmountFor st unused }

/-- The `Object.keys(categoryBudgets).forEach` loop building the month's
`monthlyRollover` entry: only categories with a positive rollover amount
are recorded, and `totalAmount` accumulates them. -/
def computeMonthlyRollover (st : RolloverSettings) (budgets : List (String × ℚ))
    (spending : List (String × ℚ)) : RolloverEntry :=
  budgets.foldl
    (fun e p =>
      let ce := rolloverForCategory st p.2 (lookupAmount spending p.1)
      if 0 < ce.rolloverAmount then
        { e with
          categories := e.categories ++ [(p.1, ce)]
          totalAmount := e.totalAmount + ce.rolloverAmount }
      else e)
    { processed := true, categories := [], totalAmount := 0 }

/-- The clean-up loop: with a numeric expiry, every month whose distance
from `now` is at least `expiryMonths` is deleted (kept iff
`monthsDiff < expiryMonths`); `"never"` skips the purge. -/
def purgeExpired (now : Int) (st : RolloverSettings) (l : RolloverLedger) :
    RolloverLedger :=
  match st.expiry with
  | RolloverExpiry.never => l
  | RolloverExpiry.months k => l.filter (fun p => now - p.1 < (k : Int))

/-- Model of `processMonthlyRollover()` (popup.js) as a function of the storage it
reads and writes: disabled settings are a no-op; an already-processed entry
for last month short-circuits; otherwise last month's entry is computed
from current spending, written, and the expiry purge runs. -/
def processMonthlyRollover (now : Int) (st : RolloverSettings)
    (budgets : List (String × ℚ)) (subs : List (Subscription Int))
    (l : RolloverLedger) : RolloverLedger :=
  if st.enabled = false then l
  else
    let lastMonth := now - 1
    let alreadyProcessed :=
      match lookupEntry l lastMonth with
      | some e => e.processed
      | none => false
    if alreadyProcessed then l
    else
      let entry := computeMonthlyRollover st budgets (computeCategorySpending subs)
      purgeExpired now st (setEntry l lastMonth entry)

/-! ## Concrete fixtures used to instantiate the theorems -/

def wSub : Subscription Int :=
  { id := ("s1"), name := ("Netflix"), price := 10, nextPaymentDate := some 0 }

def wStore : DataManager Int := { subscriptions := [wSub] }

def wSubCal : Subscription CalDate :=
  { id := ("s1"), name := ("Netflix"), price := 10
    nextPaymentDate := some ⟨2025, 0, 15⟩ }

def wStoreCal : DataManager CalDate := { subscriptions := [wSubCal] }

def wSpend70 : Subscription Int :=
  { id := ("a"), name := ("A"), price := 70, category := ("x") }

def wStoreEnt : DataManager Int :=
  { subscriptions :=
      [{ id := ("s1"), name := ("Coursera"), price := 5, category := ("education") }] }

def wBreakSubs : List (Subscription Int) :=
  [{ id := ("b1"), name := ("A"), price := 30, category := ("x") },
   { id := ("b2"), name := ("B"), price := 10, category := ("y") }]

/-! ## Date lemmas -/

theorem daysInMonth_ge (y m : Nat) : 28 ≤ daysInMonth y m := by
  unfold daysInMonth
  rcases m with _ | _ | _ | _ | _ | _ | _ | _ | _ | _ | _ | _ | m
  all_goals simp
  cases isLeapYear y <;> simp

/-- With day-of-month at most 28 the roll-over branch of `setMonthAdd` is
never taken. -/
theorem setMonthAdd_of_day_le (k : Nat) (d : CalDate) (h : d.day ≤ 28) :
    setMonthAdd k d =
      ⟨(d.year * 12 + d.month + k) / 12, (d.year * 12 + d.month + k) % 12, d.day⟩ := by
  unfold setMonthAdd
  rw [if_pos (le_trans h (daysInMonth_ge _ _))]

/-- Iterating the monthly advance on a date whose day is at most 28 keeps
the day and accumulates months, in the normal form used by
`setMonthAdd_of_day_le`. -/
theorem setMonthAdd_one_iterate (n : Nat) (y m dd : Nat) (h : dd ≤ 28)
    (hm : m ≤ 11) :
    (setMonthAdd 1)^[n] ⟨y, m, dd⟩ =
      ⟨(y * 12 + m + n) / 12, (y * 12 + m + n) % 12, dd⟩ := by
  induction n with
  | zero =>
      rw [Function.iterate_zero, id_eq]
      simp only [CalDate.mk.injEq, and_true]
      omega
  | succ n ih =>
      rw [Function.iterate_succ_apply', ih,
        setMonthAdd_of_day_le 1 ⟨(y * 12 + m + n) / 12, (y * 12 + m + n) % 12, dd⟩ h]
      simp only [CalDate.mk.injEq, and_true]
      have hdm := Nat.div_add_mod (y * 12 + m + n) 12
      omega

theorem setMonthAdd_iterate_eq (n : Nat) (y m dd : Nat) (h : dd ≤ 28)
    (hm : m ≤ 11) :
    (setMonthAdd 1)^[n] ⟨y, m, dd⟩ = setMonthAdd n ⟨y, m, dd⟩ := by
  rw [setMonthAdd_one_iterate n y m dd h hm, setMonthAdd_of_day_le n ⟨y, m, dd⟩ h]

/-! ## Claim C1 — monthly billing-cycle advance -/

/-- Claim C1, counterexample: the source's monthly advance
(`setMonth(getMonth() + 1)`, modelled by `setMonthAdd 1`) does NOT clamp to
the last day of a shorter target month.  From January 31, 2025 the code
produces March 3, 2025, while the claimed clamping calendar arithmetic
(`addMonthClamp`) produces February 28, 2025. -/
theorem claim1_counterexample :
    setMonthAdd 1 ⟨2025, 0, 31⟩ = ⟨2025, 2, 3⟩ ∧
    addMonthClamp 1 ⟨2025, 0, 31⟩ = ⟨2025, 1, 28⟩ ∧
    setMonthAdd 1 ⟨2025, 0, 31⟩ ≠ addMonthClamp 1 ⟨2025, 0, 31⟩ := by
  refine ⟨by decide, by decide, by decide⟩

/-- Claim C1 (amended): for a date whose day-of-month is at most 28 the
roll-over normalization never fires, so the monthly advance used by
`skipNextPayment` does yield the same day-of-month one calendar month later
(it agrees with the clamping advance the spec describes), and applying it
twelve times advances the date by exactly twelve calendar months (same
month and day, one year later); on days 29–31 the code instead rolls
overflow days into the following month. -/
theorem claim1_monthly_advance (y m dd : Nat) (hm : m ≤ 11) (hd : dd ≤ 28) :
    nextPaymentAfter ("monthly") ⟨y, m, dd⟩ = addMonthClamp 1 ⟨y, m, dd⟩ ∧
    (setMonthAdd 1)^[12] ⟨y, m, dd⟩ = ⟨y + 1, m, dd⟩ ∧
    addMonthClamp 12 ⟨y, m, dd⟩ = ⟨y + 1, m, dd⟩ := by
  refine ⟨?_, ?_, ?_⟩
  · show setMonthAdd 1 ⟨y, m, dd⟩ = addMonthClamp 1 ⟨y, m, dd⟩
    rw [setMonthAdd_of_day_le 1 ⟨y, m, dd⟩ hd]
    unfold addMonthClamp
    simp only [CalDate.mk.injEq, true_and]
    exact (min_eq_left (le_trans hd (daysInMonth_ge _ _))).symm
  · rw [setMonthAdd_one_iterate 12 y m dd hd hm]
    simp only [CalDate.mk.injEq, and_true]
    omega
  · unfold addMonthClamp
    simp only [CalDate.mk.injEq]
    refine ⟨by omega, by omega, ?_⟩
    exact min_eq_left (le_trans hd (daysInMonth_ge _ _))

/-- Witness for `claim1_monthly_advance` at January 15, 2025. -/
theorem claim1_monthly_advance_witness :
    nextPaymentAfter ("monthly") ⟨2025, 0, 15⟩ = addMonthClamp 1 ⟨2025, 0, 15⟩ ∧
    (setMonthAdd 1)^[12] (⟨2025, 0, 15⟩ : CalDate) = ⟨2026, 0, 15⟩ ∧
    addMonthClamp 12 ⟨2025, 0, 15⟩ = ⟨2026, 0, 15⟩ :=
  claim1_monthly_advance 2025 0 15 (by decide) (by decide)

/-! ## Store lookup lemmas -/

theorem findWithIdx_eq_none {l : List (Subscription δ)} {id : String}
    (h : ∀ s ∈ l, s.id ≠ id) : findWithIdx id l = none := by
  induction l with
  | nil => rfl
  | cons x rest ih =>
      have hx : (x.id == id) = false := by
        simpa using h x (List.mem_cons_self x rest)
      have hrest : findWithIdx id rest = none :=
        ih (fun s hs => h s (List.mem_cons_of_mem x hs))
      simp [findWithIdx, hx, hrest]

/-- Replacing the found element (by an element with the same id) moves the
first-match lookup to the replacement. -/
theorem findWithIdx_set {l : List (Subscription δ)} {id : String} {i : Nat}
    {s : Subscription δ} (h : findWithIdx id l = some (i, s))
    (s2 : Subscription δ) (hid : s2.id = s.id) :
    findWithIdx id (l.set i s2) = some (i, s2) := by
  induction l generalizing i with
  | nil => simp [findWithIdx] at h
  | cons x rest ih =>
      by_cases hx : (x.id == id) = true
      · rw [findWithIdx, if_pos hx] at h
        have h2 : ((0 : Nat), x) = (i, s) := Option.some.inj h
        have hi : i = 0 := (congrArg Prod.fst h2).symm
        have hs : x = s := congrArg Prod.snd h2
        subst hi
        have hs2 : (s2.id == id) = true := by
          rw [hid, ← hs]
          exact hx
        simp [List.set, findWithIdx, hs2]
      · have hxf : (x.id == id) = false := by simpa using hx
        rw [findWithIdx, if_neg (by simp [hxf])] at h
        cases hrest : findWithIdx id rest with
        | none => rw [hrest] at h; simp at h
        | some pr =>
            obtain ⟨j, t⟩ := pr
            rw [hrest] at h
            have h2 : ((j + 1 : Nat), t) = (i, s) := by simpa using h
            have hi : i = j + 1 := (congrArg Prod.fst h2).symm
            have hs : t = s := congrArg Prod.snd h2
            subst hi
            subst hs
            simp only [List.set]
            rw [findWithIdx, if_neg (by simp [hxf]), ih hrest]
            rfl

/-! ## Claim C10 — write operations are atomic on validation failure -/

/-- Claim C10: whenever `addSubscription` or `updateSubscription` throws
(in particular on a non-object input or a missing/empty name), the
subscription collection is exactly what it was before the call. -/
theorem claim10_write_atomicity (genId : String) (input : Option (AddInput δ))
    (id : String) (u : SubUpdates δ) (dm : DataManager δ) (e1 e2 : DMError) :
    ((addSubscription genId input dm).1 = Except.error e1 →
      (addSubscription genId input dm).2 = dm) ∧
    ((updateSubscription id u dm).1 = Except.error e2 →
      (updateSubscription id u dm).2 = dm) := by
  constructor
  · intro h
    cases input with
    | none => rfl
    | some d =>
        unfold addSubscription at h ⊢
        dsimp only at h ⊢
        split at h <;> simp_all
  · intro h
    unfold updateSubscription at h ⊢
    split at h
    · simp_all
    · split at h
      · dsimp only at h
        split at h <;> simp_all
      · simp_all

/-- Witness for `claim10_write_atomicity`: a non-object add input and an
empty-name update both error and leave the one-element store unchanged. -/
theorem claim10_write_atomicity_witness :
    (addSubscription (δ := Int) ("g1") none wStore).2 = wStore ∧
    (updateSubscription ("s1") { name := some ("") } wStore).2 = wStore :=
  ⟨(claim10_write_atomicity ("g1") none ("s1") { name := some ("") } wStore
      DMError.validationError DMError.validationError).1 (by decide),
   (claim10_write_atomicity ("g1") none ("s1") { name := some ("") } wStore
      DMError.validationError DMError.validationError).2 (by decide)⟩

/-! ## Claim C5 — unknown-id behaviour -/

/-- Claim C5, counterexample: `pauseSubscription` (and resume / skip) on an
id absent from the store does NOT signal a NotFound condition — it returns
the `null` no-change signal (`ok none`), indistinguishable from the
soft-precondition no-op. -/
theorem claim5_counterexample :
    pauseSubscription (δ := Int) 0 ("x") {} = (Except.ok none, ({} : DataManager Int)) ∧
    resumeSubscription 0 ("x") {} = (Except.ok none, ({} : DataManager Int)) ∧
    skipNextPayment ("x") {} = (Except.ok none, ({} : DataManager CalDate)) ∧
    (pauseSubscription (δ := Int) 0 ("x") {}).1 ≠ Except.error DMError.notFound := by
  refine ⟨by decide, by decide, by decide, by decide⟩

/-- Claim C5 (amended): on an id absent from the store, `updateSubscription`
and `deleteSubscription` signal NotFound (distinct from the validation
error), while the lifecycle operations `pauseSubscription`,
`resumeSubscription` and `skipNextPayment` return the `null` no-change
signal instead of an error. -/
theorem claim5_unknown_id (dm : DataManager Int) (dmc : DataManager CalDate)
    (id : String) (u : SubUpdates Int) (now : Int)
    (hid : id ≠ (""))
    (h1 : ∀ s ∈ dm.subscriptions, s.id ≠ id)
    (h2 : ∀ s ∈ dmc.subscriptions, s.id ≠ id) :
    updateSubscription id u dm = (Except.error DMError.notFound, dm) ∧
    deleteSubscription id dm = (Except.error DMError.notFound, dm) ∧
    DMError.notFound ≠ DMError.validationError ∧
    pauseSubscription now id dm = (Except.ok none, dm) ∧
    resumeSubscription now id dm = (Except.ok none, dm) ∧
    skipNextPayment id dmc = (Except.ok none, dmc) := by
  have hid2 : (id == ("")) = false := by simpa using hid
  refine ⟨?_, ?_, by decide, ?_, ?_, ?_⟩
  · simp [updateSubscription, hid2, findWithIdx_eq_none h1]
  · simp [deleteSubscription, hid2, findWithIdx_eq_none h1]
  · simp [pauseSubscription, findWithIdx_eq_none h1]
  · simp [resumeSubscription, findWithIdx_eq_none h1]
  · simp [skipNextPayment, findWithIdx_eq_none h2]

/-! ## Lifecycle operation lemmas -/

/-- Behaviour of `pauseSubscription` on a found active subscription: deactivates it and
stamps `pausedAt`. -/
theorem pauseSubscription_active (dm : DataManager δ) (id : String) (i : Nat)
    (s : Subscription δ) (t0 : δ)
    (hfind : findWithIdx id dm.subscriptions = some (i, s))
    (hid : id ≠ ("")) (hname : s.name ≠ ("")) (hact : s.isActive = true) :
    pauseSubscription t0 id dm =
      (Except.ok (some { s with isActive := false, pausedAt := some t0 }),
       { dm with subscriptions :=
          dm.subscriptions.set i { s with isActive := false, pausedAt := some t0 } }) := by
  have hid2 : (id == ("")) = false := by simpa using hid
  have hname2 : (s.name == ("")) = false := by simpa using hname
  unfold pauseSubscription updateSubscription
  rw [hfind]
  dsimp only
  rw [hact]
  simp [hid2, applyUpdates, hname2, Except.map]

/-- Behaviour of `resumeSubscription` on a found inactive subscription with both
`pausedAt` and `nextPaymentDate` set: reactivates, and shifts the date by
`daysPaused` days of milliseconds exactly when `daysPaused` is positive. -/
theorem resumeSubscription_paused (dm : DataManager Int) (id : String) (i : Nat)
    (s : Subscription Int) (p npd now : Int)
    (hfind : findWithIdx id dm.subscriptions = some (i, s))
    (hid : id ≠ ("")) (hname : s.name ≠ (""))
    (hinact : s.isActive = false) (hp : s.pausedAt = some p)
    (hd : s.nextPaymentDate = some npd) :
    (0 < Int.fdiv (now - p) msPerDay →
      resumeSubscription now id dm =
        (Except.ok (some { s with
            isActive := true
            nextPaymentDate := some (npd + Int.fdiv (now - p) msPerDay * msPerDay) }),
         { dm with subscriptions := dm.subscriptions.set i { s with
            isActive := true
            nextPaymentDate := some (npd + Int.fdiv (now - p) msPerDay * msPerDay) } })) ∧
    (Int.fdiv (now - p) msPerDay ≤ 0 →
      resumeSubscription now id dm =
        (Except.ok (some { s with isActive := true }),
         { dm with subscriptions :=
            dm.subscriptions.set i { s with isActive := true } })) := by
  have hid2 : (id == ("")) = false := by simpa using hid
  have hname2 : (s.name == ("")) = false := by simpa using hname
  constructor
  · intro hdp
    unfold resumeSubscription updateSubscription
    rw [hfind]
    dsimp only
    rw [hinact, hp, hd]
    simp only [Bool.false_eq_true, if_false]
    rw [if_pos hdp]
    simp [hid2, applyUpdates, hname2, Except.map, hp, hd]
  · intro hdp
    have hneg : ¬ (0 < Int.fdiv (now - p) msPerDay) := by omega
    unfold resumeSubscription updateSubscription
    rw [hfind]
    dsimp only
    rw [hinact, hp, hd]
    simp only [Bool.false_eq_true, if_false]
    rw [if_neg hneg]
    simp [hid2, applyUpdates, hname2, Except.map, hp, hd]

/-! ## Claim C4 — pause / resume day-shift semantics -/

/-- Claim C4: resume on an inactive subscription with `pausedAt` and
`nextPaymentDate` set advances the date by exactly
`daysPaused = floor((now - pausedAt) / 1 day)` days when positive and
leaves it unchanged otherwise; resume on an active subscription is a
no-change `null`; and pause followed by resume `N` whole days later
advances `nextPaymentDate` by exactly `N` days. -/
theorem claim4_pause_resume (dm : DataManager Int) (id : String) (i : Nat)
    (s : Subscription Int) (p npd t0 now : Int) (N : Nat)
    (hfind : findWithIdx id dm.subscriptions = some (i, s))
    (hid : id ≠ ("")) (hname : s.name ≠ ("")) :
    (s.isActive = true → resumeSubscription now id dm = (Except.ok none, dm)) ∧
    (s.isActive = false → s.pausedAt = some p → s.nextPaymentDate = some npd →
      0 < Int.fdiv (now - p) msPerDay →
      resumeSubscription now id dm =
        (Except.ok (some { s with
            isActive := true
            nextPaymentDate := some (npd + Int.fdiv (now - p) msPerDay * msPerDay) }),
         { dm with subscriptions := dm.subscriptions.set i { s with
            isActive := true
            nextPaymentDate := some (npd + Int.fdiv (now - p) msPerDay * msPerDay) } })) ∧
    (s.isActive = false → s.pausedAt = some p → s.nextPaymentDate = some npd →
      Int.fdiv (now - p) msPerDay ≤ 0 →
      resumeSubscription now id dm =
        (Except.ok (some { s with isActive := true }),
         { dm with subscriptions :=
            dm.subscriptions.set i { s with isActive := true } }) ∧
      ({ s with isActive := true } : Subscription Int).nextPaymentDate =
        s.nextPaymentDate) ∧
    (s.isActive = true → s.nextPaymentDate = some npd →
      pauseSubscription t0 id dm =
        (Except.ok (some { s with isActive := false, pausedAt := some t0 }),
         { dm with subscriptions :=
            dm.subscriptions.set i { s with isActive := false, pausedAt := some t0 } }) ∧
      ∃ s2 : Subscription Int,
        resumeSubscription (t0 + (N : Int) * msPerDay) id
            { dm with subscriptions :=
              dm.subscriptions.set i { s with isActive := false, pausedAt := some t0 } } =
          (Except.ok (some s2),
           { dm with subscriptions :=
              (dm.subscriptions.set i
                { s with isActive := false, pausedAt := some t0 }).set i s2 }) ∧
        s2.nextPaymentDate = some (npd + (N : Int) * msPerDay) ∧
        s2.isActive = true) := by
  refine ⟨?_, ?_, ?_, ?_⟩
  · intro hact
    unfold resumeSubscription
    rw [hfind]
    dsimp only
    rw [hact]
    simp
  · intro hinact hp hd hdp
    exact (resumeSubscription_paused dm id i s p npd now hfind hid hname hinact hp hd).1 hdp
  · intro hinact hp hd hdp
    refine ⟨(resumeSubscription_paused dm id i s p npd now hfind hid hname hinact hp hd).2 hdp, ?_⟩
    rfl
  · intro hact hd
    refine ⟨pauseSubscription_active dm id i s t0 hfind hid hname hact, ?_⟩
    have hfind2 : findWithIdx id
        (dm.subscriptions.set i { s with isActive := false, pausedAt := some t0 }) =
        some (i, { s with isActive := false, pausedAt := some t0 }) :=
      findWithIdx_set hfind _ rfl
    have hdays : Int.fdiv (t0 + (N : Int) * msPerDay - t0) msPerDay = (N : Int) := by
      have h0 : t0 + (N : Int) * msPerDay - t0 = (N : Int) * msPerDay := by ring
      rw [h0]
      exact Int.mul_fdiv_cancel _ (by decide)
    have hres := resumeSubscription_paused
      { dm with subscriptions :=
          dm.subscriptions.set i { s with isActive := false, pausedAt := some t0 } }
      id i { s with isActive := false, pausedAt := some t0 } t0 npd
      (t0 + (N : Int) * msPerDay) hfind2 hid hname rfl rfl hd
    cases N with
    | zero =>
        refine ⟨{ s with pausedAt := some t0, isActive := true }, ?_⟩
        have h2 := hres.2 (by rw [hdays]; simp)
        refine ⟨?_, ?_, rfl⟩
        · simpa using h2
        · simp [hd]
    | succ n =>
        refine ⟨{ s with
            pausedAt := some t0
            isActive := true
            nextPaymentDate := some (npd + ((n + 1 : Nat) : Int) * msPerDay) }, ?_⟩
        have hpos : 0 < Int.fdiv (t0 + ((n + 1 : Nat) : Int) * msPerDay - t0) msPerDay := by
          rw [hdays]
          omega
        have h2 := hres.1 hpos
        rw [hdays] at h2
        refine ⟨?_, rfl, rfl⟩
        simpa using h2

/-- Witness for `claim4_pause_resume`: the one-element store, pausing at
time 0 and resuming 3 whole days later shifts the next payment date from 0
to 3 days of milliseconds. -/
theorem claim4_pause_resume_witness :
    pauseSubscription 0 ("s1") wStore =
      (Except.ok (some { wSub with isActive := false, pausedAt := some 0 }),
       { wStore with subscriptions :=
          wStore.subscriptions.set 0 { wSub with isActive := false, pausedAt := some 0 } }) ∧
    ∃ s2 : Subscription Int,
      resumeSubscription (0 + (3 : Int) * msPerDay) ("s1")
          { wStore with subscriptions :=
            wStore.subscriptions.set 0 { wSub with isActive := false, pausedAt := some 0 } } =
        (Except.ok (some s2),
         { wStore with subscriptions :=
            (wStore.subscriptions.set 0
              { wSub with isActive := false, pausedAt := some 0 }).set 0 s2 }) ∧
      s2.nextPaymentDate = some (0 + (3 : Int) * msPerDay) ∧
      s2.isActive = true :=
  (claim4_pause_resume wStore ("s1") 0 wSub 0 0 0 (0 + (3 : Int) * msPerDay) 3
      (by decide) (by decide) (by decide)).2.2.2 rfl rfl

/-! ## Claim C6 — skipNextPayment -/

/-- Claim C6: on a found, active subscription with a set
`nextPaymentDate`, `skipNextPayment` advances the date by exactly one
billing cycle (`nextPaymentAfter`), increments `skippedPayments` by one and
leaves the monthly-equivalent rate (price and billing cycle) unchanged; on
a subscription violating the precondition it is a no-op returning the
`null` signal. -/
theorem claim6_skip_next_payment (dm : DataManager CalDate) (id : String)
    (i : Nat) (s : Subscription CalDate) (npd : CalDate)
    (hfind : findWithIdx id dm.subscriptions = some (i, s))
    (hid : id ≠ ("")) (hname : s.name ≠ ("")) :
    (s.isActive = true → s.nextPaymentDate = some npd →
      skipNextPayment id dm =
        (Except.ok (some { s with
            nextPaymentDate := some (nextPaymentAfter s.billingCycle npd)
            skippedPayments := s.skippedPayments + 1 }),
         { dm with subscriptions := dm.subscriptions.set i { s with
            nextPaymentDate := some (nextPaymentAfter s.billingCycle npd)
            skippedPayments := s.skippedPayments + 1 } }) ∧
      calculateMonthlyRate ({ s with
            nextPaymentDate := some (nextPaymentAfter s.billingCycle npd)
            skippedPayments := s.skippedPayments + 1 } : Subscription CalDate) =
        calculateMonthlyRate s) ∧
    (s.isActive = false → skipNextPayment id dm = (Except.ok none, dm)) ∧
    (s.nextPaymentDate = none → skipNextPayment id dm = (Except.ok none, dm)) := by
  have hid2 : (id == ("")) = false := by simpa using hid
  have hname2 : (s.name == ("")) = false := by simpa using hname
  refine ⟨?_, ?_, ?_⟩
  · intro hact hdate
    constructor
    · unfold skipNextPayment updateSubscription
      rw [hfind]
      dsimp only
      rw [hact, hdate]
      simp [hid2, applyUpdates, hname2, Except.map, hdate, hact]
    · rfl
  · intro hinact
    unfold skipNextPayment
    rw [hfind]
    dsimp only
    rw [hinact]
    simp
  · intro hdate
    unfold skipNextPayment
    rw [hfind]
    dsimp only
    rw [hdate]
    split <;> rfl

/-- Witness for `claim6_skip_next_payment`: skipping the monthly
subscription of the one-element store advances January 15, 2025 to
February 15, 2025 and bumps the skip counter to 1. -/
theorem claim6_skip_next_payment_witness :
    skipNextPayment ("s1") wStoreCal =
      (Except.ok (some { wSubCal with
          nextPaymentDate := some (nextPaymentAfter wSubCal.billingCycle ⟨2025, 0, 15⟩)
          skippedPayments := wSubCal.skippedPayments + 1 }),
       { wStoreCal with subscriptions := wStoreCal.subscriptions.set 0 { wSubCal with
          nextPaymentDate := some (nextPaymentAfter wSubCal.billingCycle ⟨2025, 0, 15⟩)
          skippedPayments := wSubCal.skippedPayments + 1 } }) ∧
    calculateMonthlyRate ({ wSubCal with
          nextPaymentDate := some (nextPaymentAfter wSubCal.billingCycle ⟨2025, 0, 15⟩)
          skippedPayments := wSubCal.skippedPayments + 1 } : Subscription CalDate) =
      calculateMonthlyRate wSubCal :=
  (claim6_skip_next_payment wStoreCal ("s1") 0 wSubCal ⟨2025, 0, 15⟩
      (by decide) (by decide) (by decide)).1 rfl rfl

/-- Witness for `claim5_unknown_id` on the one-element stores with a fresh
id. -/
theorem claim5_unknown_id_witness :
    updateSubscription ("zz") {} wStore = (Except.error DMError.notFound, wStore) ∧
    deleteSubscription ("zz") wStore = (Except.error DMError.notFound, wStore) ∧
    DMError.notFound ≠ DMError.validationError ∧
    pauseSubscription 0 ("zz") wStore = (Except.ok none, wStore) ∧
    resumeSubscription 0 ("zz") wStore = (Except.ok none, wStore) ∧
    skipNextPayment ("zz") wStoreCal = (Except.ok none, wStoreCal) :=
  claim5_unknown_id wStore wStoreCal ("zz") {} 0 (by decide) (by decide) (by decide)

/-! ## Claim C7 — category removal invariant -/

/-- Claim C7: removing a category reassigns every subscription of that
category to `"other"` (when removal actually happens, i.e. the name is
present and more than one category remains), and the category set never
becomes empty. -/
theorem claim7_remove_category (dm : DataManager δ) (name : String)
    (hne : dm.categories ≠ []) :
    (removeCategory name dm).categories ≠ [] ∧
    (dm.categories.contains name = true → 1 < dm.categories.length →
      (removeCategory name dm).categories = dm.categories.erase name ∧
      (removeCategory name dm).subscriptions =
        dm.subscriptions.map (fun s =>
          if s.category == name then { s with category := ("other") } else s) ∧
      (name ≠ ("other") →
        ∀ t ∈ (removeCategory name dm).subscriptions, t.category ≠ name)) := by
  by_cases hc : (dm.categories.contains name && decide (1 < dm.categories.length)) = true
  · have hmem : name ∈ dm.categories := by
      have h1 := (Bool.and_eq_true _ _).mp hc |>.1
      simpa using h1
    have h1 : removeCategory name dm =
        { dm with
          categories := dm.categories.erase name
          subscriptions := dm.subscriptions.map (fun s =>
            if s.category == name then { s with category := ("other") } else s) } := by
      unfold removeCategory
      rw [if_pos hc]
    have hlen : 1 < dm.categories.length := by
      have h2 := (Bool.and_eq_true _ _).mp hc |>.2
      simpa using h2
    refine ⟨?_, fun _ _ => ⟨by rw [h1], by rw [h1], ?_⟩⟩
    · rw [h1]
      apply List.ne_nil_of_length_pos
      rw [List.length_erase_of_mem hmem]
      omega
    · intro hno t ht
      rw [h1] at ht
      rcases List.mem_map.mp ht with ⟨s, _, rfl⟩
      by_cases hs : (s.category == name) = true
      · rw [if_pos hs]
        simpa using fun h => hno h.symm
      · rw [if_neg hs]
        simpa using hs
  · have h1 : removeCategory name dm = dm := by
      unfold removeCategory
      rw [if_neg hc]
    refine ⟨by rw [h1]; exact hne, fun hcont hlen => absurd ?_ hc⟩
    have hmem2 : name ∈ dm.categories := by simpa using hcont
    simp [hmem2, hlen]

/-- Witness for `claim7_remove_category`: removing `"education"` from a
store with one education subscription keeps a nonempty category set,
erases the category and reassigns the subscription. -/
theorem claim7_remove_category_witness :
    (removeCategory ("education") wStoreEnt).categories ≠ [] ∧
    (removeCategory ("education") wStoreEnt).categories =
      wStoreEnt.categories.erase ("education") ∧
    (removeCategory ("education") wStoreEnt).subscriptions =
      wStoreEnt.subscriptions.map (fun s =>
        if s.category == ("education") then { s with category := ("other") } else s) :=
  have h := claim7_remove_category wStoreEnt ("education") (by decide)
  ⟨h.1, (h.2 (by decide) (by decide)).1, (h.2 (by decide) (by decide)).2.1⟩

/-! ## Claim C9 — monthly spending has a single bucket, so trends are flat -/

/-- The accumulator of `getMonthlySpending` only ever holds the single
current-month key. -/
theorem monthly_fold_shape (nowMonth : String) (subs : List (Subscription δ))
    (acc : List (String × ℚ)) (h : acc = [] ∨ ∃ q, acc = [(nowMonth, q)]) :
    (subs.foldl
        (fun a s =>
          if s.isActive then addToAssoc a nowMonth (calculateMonthlyRate s) else a)
        acc) = [] ∨
    ∃ q, (subs.foldl
        (fun a s =>
          if s.isActive then addToAssoc a nowMonth (calculateMonthlyRate s) else a)
        acc) = [(nowMonth, q)] := by
  induction subs generalizing acc with
  | nil => simpa using h
  | cons x rest ih =>
      rw [List.foldl_cons]
      apply ih
      cases hx : x.isActive
      · simpa using h
      · rcases h with h | ⟨q, h⟩ <;> subst h
        · right
          exact ⟨calculateMonthlyRate x, by simp [addToAssoc]⟩
        · right
          exact ⟨q + calculateMonthlyRate x, by simp [addToAssoc]⟩

theorem getMonthlySpending_shape (nowMonth : String)
    (subs : List (Subscription δ)) :
    getMonthlySpending nowMonth subs = [] ∨
    ∃ q, getMonthlySpending nowMonth subs = [(nowMonth, q)] := by
  unfold getMonthlySpending
  exact monthly_fold_shape nowMonth subs [] (Or.inl rfl)

/-- Claim C9: `getMonthlySpending` returns at most one bucket — the current
month — and `getSpendingTrends` over it is therefore always
`stable / 0`. -/
theorem claim9_single_bucket_stable_trend (nowMonth : String)
    (subs : List (Subscription Int)) :
    (getMonthlySpending nowMonth subs).length ≤ 1 ∧
    (getMonthlySpending nowMonth subs).map Prod.fst =
      List.replicate (getMonthlySpending nowMonth subs).length nowMonth ∧
    getSpendingTrends (getMonthlySpending nowMonth subs) = (("stable"), 0) := by
  rcases getMonthlySpending_shape nowMonth subs with h | ⟨q, h⟩ <;> rw [h]
  · exact ⟨by simp, by simp, rfl⟩
  · exact ⟨by simp, by simp, rfl⟩

/-! ## Claim C2 — rollover amount computation -/

/-- Claim C2: the rollover computes `unusedAmount = max(0, budget - spend)`
whatever the mode, and the rollover amount is the unused amount in `full`
mode, `unused * percentage / 100` in `percentage` mode and
`min(unused, maxAmount)` in `fixed` mode; with budget 100 and spend 70 the
three modes give 15 (at 50%), 10 (cap 10) and 30 — also through the
spending pipeline of `processMonthlyRollover`. -/
theorem claim2_rollover_modes (b s p mx : ℚ) (e : RolloverExpiry) :
    (∀ md : String,
      (rolloverForCategory ⟨true, md, p, mx, e⟩ b s).unusedAmount = max 0 (b - s)) ∧
    (rolloverForCategory ⟨true, ("full"), p, mx, e⟩ b s).rolloverAmount =
      max 0 (b - s) ∧
    (rolloverForCategory ⟨true, ("percentage"), p, mx, e⟩ b s).rolloverAmount =
      max 0 (b - s) * (p / 100) ∧
    (rolloverForCategory ⟨true, ("fixed"), p, mx, e⟩ b s).rolloverAmount =
      min (max 0 (b - s)) mx ∧
    rolloverForCategory ⟨true, ("percentage"), 50, mx, e⟩ 100 70 =
      ⟨100, 70, 30, 15⟩ ∧
    rolloverForCategory ⟨true, ("fixed"), p, 10, e⟩ 100 70 = ⟨100, 70, 30, 10⟩ ∧
    rolloverForCategory ⟨true, ("full"), p, mx, e⟩ 100 70 = ⟨100, 70, 30, 30⟩ ∧
    (computeMonthlyRollover ⟨true, ("percentage"), 50, mx, e⟩ [(("x"), 100)]
        (computeCategorySpending [wSpend70])).categories =
      [(("x"), ⟨100, 70, 30, 15⟩)] := by
  refine ⟨fun md => rfl, rfl, ?_, ?_, ?_, ?_, ?_, ?_⟩
  · simp [rolloverForCategory, rolloverAmountFor]
  · simp [rolloverForCategory, rolloverAmountFor]
  · norm_num [rolloverForCategory, rolloverAmountFor, max_def]
    decide
  · simp [rolloverForCategory, rolloverAmountFor]
    norm_num [max_def, min_def]
  · norm_num [rolloverForCategory, rolloverAmountFor, max_def]
  · simp [computeMonthlyRollover, computeCategorySpending, lookupAmount, addToAssoc,
      rolloverForCategory, rolloverAmountFor, wSpend70]
    norm_num [max_def]

/-! ## Claim C8 — category breakdown -/

theorem addToAssoc_keys_mem {l : List (String × ℚ)} {k : String} (v : ℚ)
    (h : k ∈ l.map Prod.fst) :
    (addToAssoc l k v).map Prod.fst = l.map Prod.fst := by
  induction l with
  | nil => simp at h
  | cons x rest ih =>
      by_cases hx : (x.1 == k) = true
      · obtain ⟨k2, v2⟩ := x
        simp [addToAssoc, hx]
      · obtain ⟨k2, v2⟩ := x
        have hk : k ∈ rest.map Prod.fst := by
          rcases List.mem_cons.mp h with h | h
          · exact absurd (by simpa using h.symm) (by simpa using hx)
          · exact h
        simp only [addToAssoc, hx, Bool.false_eq_true, if_false, List.map_cons]
        rw [ih hk]

theorem addToAssoc_keys_not_mem {l : List (String × ℚ)} {k : String} (v : ℚ)
    (h : k ∉ l.map Prod.fst) :
    (addToAssoc l k v).map Prod.fst = l.map Prod.fst ++ [k] := by
  induction l with
  | nil => rfl
  | cons x rest ih =>
      obtain ⟨k2, v2⟩ := x
      have hx : (k2 == k) = false := by
        simp only [List.map_cons, List.mem_cons] at h
        simpa using fun he => h (Or.inl he.symm)
      have hk : k ∉ rest.map Prod.fst := by
        simp only [List.map_cons, List.mem_cons] at h
        exact fun hc => h (Or.inr hc)
      simp only [addToAssoc, hx, Bool.false_eq_true, if_false, List.map_cons]
      rw [ih hk]
      rfl

theorem addToAssoc_keys_nodup {l : List (String × ℚ)} {k : String} (v : ℚ)
    (h : (l.map Prod.fst).Nodup) : ((addToAssoc l k v).map Prod.fst).Nodup := by
  by_cases hk : k ∈ l.map Prod.fst
  · rw [addToAssoc_keys_mem v hk]
    exact h
  · rw [addToAssoc_keys_not_mem v hk]
    simp [List.nodup_append, h, hk]

/-- The category-keyed accumulations (`getSpendingByCategory`,
`computeCategorySpending`, parametrized by the per-subscription amount
`f`) never produce a duplicate key. -/
theorem spendFold_keys_nodup (f : Subscription δ → ℚ) (subs : List (Subscription δ))
    (acc : List (String × ℚ)) (h : (acc.map Prod.fst).Nodup) :
    ((subs.foldl (fun a s => if s.isActive then addToAssoc a s.category (f s) else a)
        acc).map Prod.fst).Nodup := by
  induction subs generalizing acc with
  | nil => simpa using h
  | cons x rest ih =>
      rw [List.foldl_cons]
      apply ih
      cases hx : x.isActive
      · simpa using h
      · simpa using addToAssoc_keys_nodup (f x) h

theorem getSpendingByCategory_keys_nodup (subs : List (Subscription δ)) :
    ((getSpendingByCategory subs).map Prod.fst).Nodup := by
  unfold getSpendingByCategory
  exact spendFold_keys_nodup calculateMonthlyRate subs [] (by simp)

/-- Claim C8: `getCategoryBreakdown` yields one entry per spending
category (its entries are a permutation of the category-spend map, and the
category names are duplicate-free); each percentage is the amount relative
to the total spend rounded to the nearest integer when the total is
positive and 0 otherwise (in particular 0 throughout when the total is
zero, never an undefined value); and the empty subscription list yields the
empty breakdown. -/
theorem claim8_category_breakdown (subs : List (Subscription Int)) :
    getCategoryBreakdown ([] : List (Subscription Int)) = [] ∧
    ((getCategoryBreakdown subs).map (fun e => (e.category, e.amount))).Perm
      (getSpendingByCategory subs) ∧
    ((getCategoryBreakdown subs).map BreakdownEntry.category).Nodup ∧
    (∀ e ∈ getCategoryBreakdown subs,
      e.percentage =
        (if 0 < ((getSpendingByCategory subs).map Prod.snd).sum then
          jsRound (e.amount / ((getSpendingByCategory subs).map Prod.snd).sum * 100)
        else 0)) ∧
    (((getSpendingByCategory subs).map Prod.snd).sum = 0 →
      ∀ e ∈ getCategoryBreakdown subs, e.percentage = 0) := by
  have hperm : (getCategoryBreakdown subs).Perm
      ((getSpendingByCategory subs).map (fun p =>
        ({ category := p.1
           amount := p.2
           percentage :=
             if 0 < ((getSpendingByCategory subs).map Prod.snd).sum then
               jsRound (p.2 / ((getSpendingByCategory subs).map Prod.snd).sum * 100)
             else 0 } : BreakdownEntry))) := by
    unfold getCategoryBreakdown
    exact List.perm_insertionSort _ _
  have hpct : ∀ e ∈ getCategoryBreakdown subs,
      e.percentage =
        (if 0 < ((getSpendingByCategory subs).map Prod.snd).sum then
          jsRound (e.amount / ((getSpendingByCategory subs).map Prod.snd).sum * 100)
        else 0) := by
    intro e he
    have he2 := hperm.mem_iff.mp he
    rcases List.mem_map.mp he2 with ⟨p, _, rfl⟩
    rfl
  refine ⟨rfl, ?_, ?_, hpct, ?_⟩
  · have h2 := hperm.map (fun e : BreakdownEntry => (e.category, e.amount))
    rw [List.map_map] at h2
    have h5 : ((fun e : BreakdownEntry => (e.category, e.amount)) ∘
        (fun p : String × ℚ =>
          ({ category := p.1
             amount := p.2
             percentage :=
               if 0 < ((getSpendingByCategory subs).map Prod.snd).sum then
                 jsRound (p.2 / ((getSpendingByCategory subs).map Prod.snd).sum * 100)
               else 0 } : BreakdownEntry))) = id := rfl
    rw [h5, List.map_id] at h2
    exact h2
  · have h3 := hperm.map BreakdownEntry.category
    rw [List.map_map] at h3
    have h4 : (getSpendingByCategory subs).map
        (BreakdownEntry.category ∘ (fun p : String × ℚ =>
          ({ category := p.1
             amount := p.2
             percentage :=
               if 0 < ((getSpendingByCategory subs).map Prod.snd).sum then
                 jsRound (p.2 / ((getSpendingByCategory subs).map Prod.snd).sum * 100)
               else 0 } : BreakdownEntry))) =
        (getSpendingByCategory subs).map Prod.fst := rfl
    rw [h4] at h3
    exact h3.nodup_iff.mpr (getSpendingByCategory_keys_nodup subs)
  · intro h0 e he
    rw [hpct e he, h0]
    simp

/-- Witness for `claim8_category_breakdown`: over two subscriptions of 30
and 10 in categories `x` and `y`, the breakdown is
`[x: 30 (75%), y: 10 (25%)]`, and the `x` entry's percentage is the rounded
share of the total. -/
theorem claim8_category_breakdown_witness :
    (⟨("x"), 30, 75⟩ : BreakdownEntry) ∈ getCategoryBreakdown wBreakSubs ∧
    ((⟨("x"), 30, 75⟩ : BreakdownEntry)).percentage =
      (if 0 < ((getSpendingByCategory wBreakSubs).map Prod.snd).sum then
        jsRound ((⟨("x"), 30, 75⟩ : BreakdownEntry).amount /
          ((getSpendingByCategory wBreakSubs).map Prod.snd).sum * 100)
      else 0) := by
  have hsp : getSpendingByCategory wBreakSubs = [(("x"), 30), (("y"), 10)] := by
    simp [getSpendingByCategory, addToAssoc, wBreakSubs, calculateMonthlyRate]
  have hbd : getCategoryBreakdown wBreakSubs =
      [⟨("x"), 30, 75⟩, ⟨("y"), 10, 25⟩] := by
    simp only [getCategoryBreakdown]
    rw [hsp]
    norm_num [jsRound, List.insertionSort, List.orderedInsert, Int.floor_eq_iff]
  have hmem : (⟨("x"), 30, 75⟩ : BreakdownEntry) ∈ getCategoryBreakdown wBreakSubs := by
    rw [hbd]
    simp
  exact ⟨hmem, (claim8_category_breakdown wBreakSubs).2.2.2.1 _ hmem⟩

/-! ## Claim C3 — rollover idempotence lemmas -/

theorem lookupEntry_replace_of_any (l : RolloverLedger) (m : Int) (e : RolloverEntry)
    (ha : l.any (fun p => p.1 == m) = true) :
    lookupEntry (l.map (fun p => if p.1 == m then (m, e) else p)) m = some e := by
  induction l with
  | nil => simp at ha
  | cons x rest ih =>
      simp only [List.map_cons]
      by_cases hx : (x.1 == m) = true
      · rw [if_pos hx]
        unfold lookupEntry
        rw [@List.find?_cons_of_pos _ (fun p => p.1 == m) (m, e) _ (by simp)]
        rfl
      · rw [if_neg hx]
        have ha2 : rest.any (fun p => p.1 == m) = true := by
          simp only [List.any_cons] at ha
          rcases Bool.or_eq_true_iff.mp ha with h | h
          · exact absurd h hx
          · exact h
        unfold lookupEntry
        rw [@List.find?_cons_of_neg _ (fun p => p.1 == m) x _ (by simpa using hx)]
        exact ih ha2

theorem lookupEntry_append_of_not_any (l : RolloverLedger) (m : Int)
    (e : RolloverEntry) (ha : l.any (fun p => p.1 == m) = false) :
    lookupEntry (l ++ [(m, e)]) m = some e := by
  induction l with
  | nil =>
      unfold lookupEntry
      rw [List.nil_append,
        @List.find?_cons_of_pos _ (fun p => p.1 == m) (m, e) _ (by simp)]
      rfl
  | cons x rest ih =>
      rw [List.cons_append]
      have h2 := ha
      simp only [List.any_cons, Bool.or_eq_false_iff] at h2
      unfold lookupEntry
      rw [@List.find?_cons_of_neg _ (fun p => p.1 == m) x _ (by simp [h2.1])]
      exact ih h2.2

theorem lookupEntry_setEntry (l : RolloverLedger) (m : Int) (e : RolloverEntry) :
    lookupEntry (setEntry l m e) m = some e := by
  unfold setEntry
  by_cases ha : l.any (fun p => p.1 == m) = true
  · rw [if_pos ha]
    exact lookupEntry_replace_of_any l m e ha
  · rw [if_neg ha]
    have ha2 : l.any (fun p => p.1 == m) = false := by
      revert ha
      cases l.any (fun p => p.1 == m) <;> simp
    exact lookupEntry_append_of_not_any l m e ha2

theorem countP_key_of_not_any (l : RolloverLedger) (m : Int)
    (h : l.any (fun p => p.1 == m) = false) :
    l.countP (fun p => p.1 == m) = 0 := by
  induction l with
  | nil => rfl
  | cons x rest ih =>
      have h2 := h
      simp only [List.any_cons, Bool.or_eq_false_iff] at h2
      rw [List.countP_cons, ih h2.2]
      simp [h2.1]

theorem countP_key_nodup_of_any (l : RolloverLedger) (m : Int)
    (hn : (l.map Prod.fst).Nodup) (ha : l.any (fun p => p.1 == m) = true) :
    l.countP (fun p => p.1 == m) = 1 := by
  induction l with
  | nil => simp at ha
  | cons x rest ih =>
      have hn2 := hn
      simp only [List.map_cons, List.nodup_cons] at hn2
      obtain ⟨hx_notin, hrest_nodup⟩ := hn2
      rw [List.countP_cons]
      by_cases hx : (x.1 == m) = true
      · have hm : x.1 = m := by simpa using hx
        have h0 : rest.any (fun p => p.1 == m) = false := by
          cases hcon : rest.any (fun p => p.1 == m) with
          | false => rfl
          | true =>
              rcases List.any_eq_true.mp hcon with ⟨p, hpmem, hpm⟩
              have hp1 : p.1 = m := by simpa using hpm
              exact absurd (hm ▸ hp1 ▸ List.mem_map_of_mem Prod.fst hpmem)
                hx_notin
        rw [countP_key_of_not_any rest m h0]
        simp [hx]
      · have ha2 : rest.any (fun p => p.1 == m) = true := by
          simp only [List.any_cons] at ha
          rcases Bool.or_eq_true_iff.mp ha with h | h
          · exact absurd h hx
          · exact h
        rw [ih hrest_nodup ha2]
        simp [hx]

theorem countP_key_replace (l : RolloverLedger) (m : Int) (e : RolloverEntry) :
    (l.map (fun p => if p.1 == m then (m, e) else p)).countP (fun p => p.1 == m) =
      l.countP (fun p => p.1 == m) := by
  induction l with
  | nil => rfl
  | cons x rest ih =>
      simp only [List.map_cons]
      rw [List.countP_cons, List.countP_cons, ih]
      congr 1
      by_cases hx : (x.1 == m) = true
      · simp [hx]
      · simp [hx]

theorem countP_setEntry (l : RolloverLedger) (m : Int) (e : RolloverEntry)
    (hn : (l.map Prod.fst).Nodup) :
    (setEntry l m e).countP (fun p => p.1 == m) = 1 := by
  unfold setEntry
  by_cases ha : l.any (fun p => p.1 == m) = true
  · rw [if_pos ha, countP_key_replace]
    exact countP_key_nodup_of_any l m hn ha
  · have ha2 : l.any (fun p => p.1 == m) = false := by
      revert ha
      cases l.any (fun p => p.1 == m) <;> simp
    rw [if_neg ha, List.countP_append, countP_key_of_not_any l m ha2]
    simp

theorem find?_key_filter (l : RolloverLedger) (m : Int)
    (q : Int × RolloverEntry → Bool)
    (hq : ∀ p : Int × RolloverEntry, p.1 = m → q p = true) :
    (l.filter q).find? (fun p => p.1 == m) = l.find? (fun p => p.1 == m) := by
  induction l with
  | nil => rfl
  | cons x rest ih =>
      by_cases hx : (x.1 == m) = true
      · have hqx : q x = true := hq x (by simpa using hx)
        simp only [List.filter_cons, hqx, if_true]
        rw [@List.find?_cons_of_pos _ (fun p => p.1 == m) x _ hx,
          @List.find?_cons_of_pos _ (fun p => p.1 == m) x _ hx]
      · by_cases hqx : q x = true
        · simp only [List.filter_cons, hqx, if_true]
          rw [@List.find?_cons_of_neg _ (fun p => p.1 == m) x _ (by simpa using hx),
            @List.find?_cons_of_neg _ (fun p => p.1 == m) x _ (by simpa using hx)]
          exact ih
        · have hqx2 : q x = false := by simpa using hqx
          simp only [List.filter_cons, hqx2, Bool.false_eq_true, if_false]
          rw [@List.find?_cons_of_neg _ (fun p => p.1 == m) x _ (by simpa using hx)]
          exact ih

theorem lookupEntry_filter (l : RolloverLedger) (m : Int)
    (q : Int × RolloverEntry → Bool)
    (hq : ∀ p : Int × RolloverEntry, p.1 = m → q p = true) :
    lookupEntry (l.filter q) m = lookupEntry l m := by
  unfold lookupEntry
  rw [find?_key_filter l m q hq]

theorem countP_key_filter (l : RolloverLedger) (m : Int)
    (q : Int × RolloverEntry → Bool)
    (hq : ∀ p : Int × RolloverEntry, p.1 = m → q p = true) :
    (l.filter q).countP (fun p => p.1 == m) = l.countP (fun p => p.1 == m) := by
  induction l with
  | nil => rfl
  | cons x rest ih =>
      by_cases hx : (x.1 == m) = true
      · have hqx : q x = true := hq x (by simpa using hx)
        simp only [List.filter_cons, hqx, if_true]
        rw [List.countP_cons, List.countP_cons, ih]
      · by_cases hqx : q x = true
        · simp only [List.filter_cons, hqx, if_true]
          rw [List.countP_cons, List.countP_cons, ih]
        · have hqx2 : q x = false := by simpa using hqx
          simp only [List.filter_cons, hqx2, Bool.false_eq_true, if_false]
          rw [ih, List.countP_cons]
          simp [hx]

theorem computeRollover_fold_processed (st : RolloverSettings)
    (budgets spending : List (String × ℚ)) (acc : RolloverEntry) :
    (budgets.foldl
      (fun e p =>
        let ce := rolloverForCategory st p.2 (lookupAmount spending p.1)
        if 0 < ce.rolloverAmount then
          { e with
            categories := e.categories ++ [(p.1, ce)]
            totalAmount := e.totalAmount + ce.rolloverAmount }
        else e) acc).processed = acc.processed := by
  induction budgets generalizing acc with
  | nil => rfl
  | cons x rest ih =>
      rw [List.foldl_cons, ih]
      dsimp only
      split <;> rfl

theorem computeMonthlyRollover_processed (st : RolloverSettings)
    (budgets spending : List (String × ℚ)) :
    (computeMonthlyRollover st budgets spending).processed = true := by
  unfold computeMonthlyRollover
  rw [computeRollover_fold_processed]

/-- An already-processed entry for last month makes `processMonthlyRollover`
a no-op (this is the `processed` guard). -/
theorem processMonthlyRollover_guard_noop (now : Int) (st : RolloverSettings)
    (budgets : List (String × ℚ)) (subs : List (Subscription Int))
    (l : RolloverLedger)
    (hg : (match lookupEntry l (now - 1) with
           | some e => e.processed
           | none => false) = true) :
    processMonthlyRollover now st budgets subs l = l := by
  unfold processMonthlyRollover
  by_cases hen : st.enabled = false
  · rw [if_pos hen]
  · rw [if_neg hen]
    dsimp only
    rw [hg]
    simp

/-- When last month's entry is absent or unprocessed, the rollover writes
the computed entry and runs the purge. -/
theorem processMonthlyRollover_write (now : Int) (st : RolloverSettings)
    (budgets : List (String × ℚ)) (subs : List (Subscription Int))
    (l : RolloverLedger)
    (hen : st.enabled = true)
    (hg : (match lookupEntry l (now - 1) with
           | some e => e.processed
           | none => false) = false) :
    processMonthlyRollover now st budgets subs l =
      purgeExpired now st (setEntry l (now - 1)
        (computeMonthlyRollover st budgets (computeCategorySpending subs))) := by
  unfold processMonthlyRollover
  rw [hen]
  dsimp only
  rw [hg]
  simp

/-- Claim C3 (amended): provided the expiry policy does not discard last
month's entry in the very call that writes it (policy `never`, or a window
of at least two months), invoking `processMonthlyRollover` twice in
succession for the same month produces exactly one ledger entry for that
month and the second invocation leaves the ledger unchanged, guarded by the
entry's `processed` flag; a one-month expiry instead purges the entry
immediately (see the counterexample). -/
theorem claim3_rollover_idempotent (now : Int) (st : RolloverSettings)
    (budgets : List (String × ℚ)) (subs : List (Subscription Int))
    (l : RolloverLedger)
    (hn : (l.map Prod.fst).Nodup)
    (hen : st.enabled = true)
    (hexp : st.expiry = RolloverExpiry.never ∨
      ∃ k, st.expiry = RolloverExpiry.months k ∧ 2 ≤ k) :
    processMonthlyRollover now st budgets subs
        (processMonthlyRollover now st budgets subs l) =
      processMonthlyRollover now st budgets subs l ∧
    (processMonthlyRollover now st budgets subs l).countP
        (fun p => p.1 == now - 1) = 1 := by
  by_cases hgp : (match lookupEntry l (now - 1) with
                  | some e => e.processed
                  | none => false) = true
  · have h1 : processMonthlyRollover now st budgets subs l = l :=
      processMonthlyRollover_guard_noop now st budgets subs l hgp
    rw [h1]
    refine ⟨h1, ?_⟩
    rcases hle : lookupEntry l (now - 1) with _ | e
    · rw [hle] at hgp
      simp at hgp
    · have hany : l.any (fun p => p.1 == now - 1) = true := by
        unfold lookupEntry at hle
        rcases hfind : l.find? (fun p => p.1 == now - 1) with _ | pr
        · rw [hfind] at hle
          simp at hle
        · have hmem := @List.mem_of_find?_eq_some _
            (fun p => p.1 == now - 1) pr l hfind
          have hpa := @List.find?_some _ (fun p => p.1 == now - 1) pr l hfind
          exact List.any_eq_true.mpr ⟨pr, hmem, hpa⟩
      exact countP_key_nodup_of_any l (now - 1) hn hany
  · have hgf : (match lookupEntry l (now - 1) with
                | some e => e.processed
                | none => false) = false := by
      simpa using hgp
    have h1 := processMonthlyRollover_write now st budgets subs l hen hgf
    have hqk : ∀ kk : Nat, 2 ≤ kk → ∀ p : Int × RolloverEntry, p.1 = now - 1 →
        (decide (now - p.1 < (kk : Int))) = true := by
      intro kk hkk p hp
      rw [hp]
      simp only [decide_eq_true_eq]
      omega
    have hlook : lookupEntry
        (purgeExpired now st (setEntry l (now - 1)
          (computeMonthlyRollover st budgets (computeCategorySpending subs))))
        (now - 1) =
        some (computeMonthlyRollover st budgets (computeCategorySpending subs)) := by
      rcases hexp with hx | ⟨k, hx, hk⟩
      · unfold purgeExpired
        rw [hx]
        exact lookupEntry_setEntry l (now - 1) _
      · unfold purgeExpired
        rw [hx]
        dsimp only
        rw [lookupEntry_filter _ _ _ (hqk k hk)]
        exact lookupEntry_setEntry l (now - 1) _
    have hguard2 : (match lookupEntry
        (purgeExpired now st (setEntry l (now - 1)
          (computeMonthlyRollover st budgets (computeCategorySpending subs))))
        (now - 1) with
        | some e => e.processed
        | none => false) = true := by
      rw [hlook]
      exact computeMonthlyRollover_processed st budgets (computeCategorySpending subs)
    have h2 := processMonthlyRollover_guard_noop now st budgets subs
      (purgeExpired now st (setEntry l (now - 1)
        (computeMonthlyRollover st budgets (computeCategorySpending subs)))) hguard2
    refine ⟨?_, ?_⟩
    · rw [h1]
      exact h2
    · rw [h1]
      rcases hexp with hx | ⟨k, hx, hk⟩
      · unfold purgeExpired
        rw [hx]
        exact countP_setEntry l (now - 1) _ hn
      · unfold purgeExpired
        rw [hx]
        dsimp only
        rw [countP_key_filter _ _ _ (hqk k hk)]
        exact countP_setEntry l (now - 1) _ hn

/-- Witness for `claim3_rollover_idempotent`: with a three-month expiry,
empty budgets and an empty ledger, re-invoking for the same month is a
no-op and the month holds exactly one entry. -/
theorem claim3_rollover_idempotent_witness :
    processMonthlyRollover 100 ⟨true, ("full"), 50, 0, RolloverExpiry.months 3⟩ [] []
        (processMonthlyRollover 100 ⟨true, ("full"), 50, 0, RolloverExpiry.months 3⟩
          [] [] []) =
      processMonthlyRollover 100 ⟨true, ("full"), 50, 0, RolloverExpiry.months 3⟩
        [] [] [] ∧
    (processMonthlyRollover 100 ⟨true, ("full"), 50, 0, RolloverExpiry.months 3⟩
        [] [] []).countP (fun p => p.1 == (100 : Int) - 1) = 1 :=
  claim3_rollover_idempotent 100 ⟨true, ("full"), 50, 0, RolloverExpiry.months 3⟩
    [] [] [] (by simp) rfl (Or.inr ⟨3, rfl, by omega⟩)

/-- Claim C3, counterexample: with the selectable one-month expiry the
purge step deletes the entry `processMonthlyRollover` has just written, so
invoking it twice for the same month leaves NO ledger entry for that month
(not exactly one), and the `processed` guard never engages. -/
theorem claim3_counterexample :
    processMonthlyRollover 100 ⟨true, ("full"), 50, 0, RolloverExpiry.months 1⟩
        [(("x"), 100)] [] [] = ([] : RolloverLedger) ∧
    (processMonthlyRollover 100 ⟨true, ("full"), 50, 0, RolloverExpiry.months 1⟩
        [(("x"), 100)] []
        (processMonthlyRollover 100 ⟨true, ("full"), 50, 0, RolloverExpiry.months 1⟩
          [(("x"), 100)] [] [])).countP (fun p => p.1 == (99 : Int)) = 0 := by
  have h1 : processMonthlyRollover 100 ⟨true, ("full"), 50, 0, RolloverExpiry.months 1⟩
      [(("x"), 100)] [] [] = ([] : RolloverLedger) := by
    simp [processMonthlyRollover, lookupEntry, computeMonthlyRollover,
      computeCategorySpending, lookupAmount, rolloverForCategory,
      rolloverAmountFor, setEntry, purgeExpired]
  refine ⟨h1, ?_⟩
  rw [h1, h1]
  rfl

end SubMgr
